import Mathlib

set_option maxHeartbeats 1000000

/-!
Verification of the schema-generator repository (src/app.py and
src/json-id-generator.py).  The Python functions are shallowly embedded:
strings are `List Char`, exceptions become `Except`/`Option`, the external
LLM completion endpoint and the Selenium web driver are oracles passed as
arguments, and Python's `json` standard library is modelled by an
executable parser/printer pair over `JsonVal`.
-/

namespace SchemaGenSpec

/-- JSON values as handled by Python's `json` module, with numeric literals
restricted to integers (fractional and exponent literals are IEEE floats,
outside this model).  Object members keep their textual order, duplicate
keys included; keys are raw character lists. -/
inductive JsonVal where
  | null
  | bool (b : Bool)
  | num (n : Int)
  | str (s : List Char)
  | arr (items : List JsonVal)
  | obj (members : List (List Char × JsonVal))

/-- JSON insignificant whitespace characters. -/
def isWsChar (c : Char) : Prop := c = ' ' ∨ c = '\n' ∨ c = '\t' ∨ c = '\r'

instance (c : Char) : Decidable (isWsChar c) := by unfold isWsChar; infer_instance

/-- Drop leading JSON whitespace. -/
def skipWs : List Char → List Char
  | [] => []
  | c :: cs => if isWsChar c then skipWs cs else c :: cs

/-- Numeric value of a decimal digit character. -/
def digitVal (c : Char) : Nat := c.toNat - 48

/-- Decimal value of a digit string (most significant first). -/
def natVal (ds : List Char) : Nat := ds.foldl (fun a c => a * 10 + digitVal c) 0

/-- Little-endian decimal digits of `n`, fuelled. -/
def natDigitsRev : Nat → Nat → List Char
  | 0, _ => []
  | f + 1, n => if n = 0 then [] else Nat.digitChar (n % 10) :: natDigitsRev f (n / 10)

/-- Decimal rendering of a natural number, as Python's `str`. -/
def natChars (m : Nat) : List Char := if m = 0 then ['0'] else (natDigitsRev m m).reverse

/-- Decimal rendering of an integer, as Python's `str`. -/
def printNum (n : Int) : List Char :=
  if n < 0 then '-' :: natChars n.natAbs else natChars n.natAbs

/-- Value of a hexadecimal digit character (both cases), if any. -/
def decodeHexDigit (c : Char) : Option Nat :=
  if c.isDigit then some (c.toNat - 48)
  else if 'a' ≤ c ∧ c ≤ 'f' then some (c.toNat - 87)
  else if 'A' ≤ c ∧ c ≤ 'F' then some (c.toNat - 55)
  else none

/-- Value of a four-hex-digit escape payload, if all digits are valid. -/
def decodeHex4 (h1 h2 h3 h4 : Char) : Option Nat :=
  match decodeHexDigit h1, decodeHexDigit h2, decodeHexDigit h3, decodeHexDigit h4 with
  | some d1, some d2, some d3, some d4 => some (((d1 * 16 + d2) * 16 + d3) * 16 + d4)
  | _, _, _, _ => none

/-- Character denoted by a single-character JSON string escape, if any. -/
def decodeEsc (e : Char) : Option Char :=
  if e = '"' then some '"'
  else if e = '\\' then some '\\'
  else if e = '/' then some '/'
  else if e = 'b' then some (Char.ofNat 8)
  else if e = 'f' then some (Char.ofNat 12)
  else if e = 'n' then some '\n'
  else if e = 'r' then some '\r'
  else if e = 't' then some '\t'
  else none

/-- Parse the body of a JSON string literal (the opening quote already
consumed), returning the decoded characters and the input after the
closing quote.  Unescaped control characters are rejected, as in Python.
The fuel (first argument) only needs to exceed the number of decoded
characters; callers pass the input length plus one. -/
def parseStringBody : Nat → List Char → Option (List Char × List Char)
  | 0, _ => none
  | f + 1, cs =>
    match cs with
    | [] => none
    | c :: rest =>
      if c = '"' then some ([], rest)
      else if c = '\\' then
        match rest with
        | [] => none
        | e :: rest' =>
          if e = 'u' then
            match rest' with
            | h1 :: h2 :: h3 :: h4 :: rest'' =>
              match decodeHex4 h1 h2 h3 h4 with
              | some n => (parseStringBody f rest'').map (fun p => (Char.ofNat n :: p.1, p.2))
              | none => none
            | _ => none
          else
            match decodeEsc e with
            | some ec => (parseStringBody f rest').map (fun p => (ec :: p.1, p.2))
            | none => none
      else if 32 ≤ c.toNat then (parseStringBody f rest).map (fun p => (c :: p.1, p.2))
      else none

/-- Parse a nonempty run of decimal digits as a natural number. -/
def parseNatPart (cs : List Char) : Option (Nat × List Char) :=
  let ds := cs.takeWhile Char.isDigit
  if ds = [] then none else some (natVal ds, cs.dropWhile Char.isDigit)

/-- Parse a JSON integer numeral (optional minus sign, digits). -/
def parseNumber : List Char → Option (JsonVal × List Char)
  | [] => none
  | c :: rest =>
    if c = '-' then (parseNatPart rest).map (fun p => (.num (-(p.1 : Int)), p.2))
    else (parseNatPart (c :: rest)).map (fun p => (.num ((p.1 : Nat) : Int), p.2))

mutual

/-- Fuelled recursive-descent parser for a JSON value, modelling
`json.loads`.  Returns the value and the unconsumed input. -/
def parseVal : Nat → List Char → Option (JsonVal × List Char)
  | 0, _ => none
  | f + 1, cs =>
    match skipWs cs with
    | [] => none
    | c :: r =>
      if c.isDigit ∨ c = '-' then parseNumber (c :: r)
      else if c = '"' then (parseStringBody (r.length + 1) r).map (fun p => (.str p.1, p.2))
      else if c = '[' then
        match skipWs r with
        | ']' :: r' => some (.arr [], r')
        | r' => (parseArrItems f r').map (fun p => (.arr p.1, p.2))
      else if c = '{' then
        match skipWs r with
        | '}' :: r' => some (.obj [], r')
        | r' => (parseObjItems f r').map (fun p => (.obj p.1, p.2))
      else if c = 'n' then
        match r with
        | 'u' :: 'l' :: 'l' :: r' => some (.null, r')
        | _ => none
      else if c = 't' then
        match r with
        | 'r' :: 'u' :: 'e' :: r' => some (.bool true, r')
        | _ => none
      else if c = 'f' then
        match r with
        | 'a' :: 'l' :: 's' :: 'e' :: r' => some (.bool false, r')
        | _ => none
      else none

/-- Parse the items of a nonempty JSON array after the opening bracket. -/
def parseArrItems : Nat → List Char → Option (List JsonVal × List Char)
  | 0, _ => none
  | f + 1, cs =>
    match parseVal f cs with
    | some (v, r1) =>
      (match skipWs r1 with
       | ',' :: r2 => (parseArrItems f r2).map (fun p => (v :: p.1, p.2))
       | ']' :: r2 => some ([v], r2)
       | _ => none)
    | none => none

/-- Parse the members of a nonempty JSON object after the opening brace. -/
def parseObjItems : Nat → List Char → Option (List (List Char × JsonVal) × List Char)
  | 0, _ => none
  | f + 1, cs =>
    match skipWs cs with
    | '"' :: r =>
      (match parseStringBody (r.length + 1) r with
       | some (k, r1) =>
         (match skipWs r1 with
          | ':' :: r2 =>
            (match parseVal f r2 with
             | some (v, r3) =>
               (match skipWs r3 with
                | ',' :: r4 => (parseObjItems f r4).map (fun p => ((k, v) :: p.1, p.2))
                | '}' :: r4 => some ([(k, v)], r4)
                | _ => none)
             | none => none)
          | _ => none)
       | none => none)
    | _ => none

end

/-- Model of Python's `json.loads`: parse a complete document, rejecting
trailing non-whitespace, returning `none` on any parse error (the Python
function raises `json.JSONDecodeError`, which every caller in this
repository catches). -/
def json_loads (cs : List Char) : Option JsonVal :=
  match parseVal (cs.length + 1) cs with
  | some (v, rest) => if skipWs rest = [] then some v else none
  | none => none

/-- Escape one character for inclusion in a JSON string literal. -/
def escapeChar (c : Char) : List Char :=
  if c = '"' then ['\\', '"']
  else if c = '\\' then ['\\', '\\']
  else if c = '\n' then ['\\', 'n']
  else if c = '\t' then ['\\', 't']
  else if c = '\r' then ['\\', 'r']
  else if c = Char.ofNat 8 then ['\\', 'b']
  else if c = Char.ofNat 12 then ['\\', 'f']
  else if c.toNat < 32 then
    ['\\', 'u', '0', '0', Nat.digitChar (c.toNat / 16), Nat.digitChar (c.toNat % 16)]
  else [c]

/-- Render a JSON string literal, quotes included. -/
def printStr (s : List Char) : List Char := '"' :: (s.map escapeChar).flatten ++ ['"']

/-- `n` spaces of indentation. -/
def ind (n : Nat) : List Char := List.replicate n ' '

mutual

/-- Pretty-print a JSON value at indentation level `lvl`, modelling
`json.dumps(v, indent=2)` (non-ASCII characters are emitted directly). -/
def printJson (lvl : Nat) (v : JsonVal) : List Char :=
  match v with
  | .null => ("null").toList
  | .bool b => if b then ("true").toList else ("false").toList
  | .num n => printNum n
  | .str s => printStr s
  | .arr [] => ['[', ']']
  | .arr (x :: xs) => '[' :: '\n' :: printItemsA (lvl + 2) x xs ++ '\n' :: ind lvl ++ [']']
  | .obj [] => ['{', '}']
  | .obj ((k, w) :: ps) => '{' :: '\n' :: printItemsO (lvl + 2) k w ps ++ '\n' :: ind lvl ++ ['}']
termination_by sizeOf v
decreasing_by all_goals (simp_wf <;> omega)

/-- Pretty-print nonempty array items, comma-and-newline separated. -/
def printItemsA (l : Nat) (x : JsonVal) (xs : List JsonVal) : List Char :=
  match xs with
  | [] => ind l ++ printJson l x
  | y :: ys => ind l ++ printJson l x ++ ',' :: '\n' :: printItemsA l y ys
termination_by sizeOf x + sizeOf xs
decreasing_by all_goals (simp_wf <;> omega)

/-- Pretty-print nonempty object members, comma-and-newline separated. -/
def printItemsO (l : Nat) (k : List Char) (v : JsonVal)
    (ps : List (List Char × JsonVal)) : List Char :=
  match ps with
  | [] => ind l ++ printStr k ++ ':' :: ' ' :: printJson l v
  | (k', v') :: qs =>
    ind l ++ printStr k ++ ':' :: ' ' :: printJson l v ++ ',' :: '\n' :: printItemsO l k' v' qs
termination_by sizeOf v + sizeOf ps
decreasing_by all_goals (simp_wf <;> omega)

end

/-- Model of Python's `json.dumps(content, indent=2)`. -/
def json_dumps (v : JsonVal) : List Char := printJson 0 v

/-! ## Python string primitives used by the sources -/

/-- Python's `str.find`: lowest index of `c`, or `-1`. -/
def pyFind (cs : List Char) (c : Char) : Int :=
  match cs.findIdx? (· = c) with
  | some i => (i : Int)
  | none => -1

/-- Python's `str.rfind`: highest index of `c`, or `-1`. -/
def pyRfind (cs : List Char) (c : Char) : Int :=
  match cs.reverse.findIdx? (· = c) with
  | some i => ((cs.length - 1 - i : Nat) : Int)
  | none => -1

/-- Python's `s[a:b]` for the nonnegative bounds arising in the sources. -/
def pySlice (cs : List Char) (a b : Int) : List Char :=
  (cs.drop a.toNat).take (b - a).toNat

/-- Python's `str.split()` whitespace characters. -/
def isPySpace (c : Char) : Prop :=
  c = ' ' ∨ c = '\t' ∨ c = '\n' ∨ c = '\r' ∨ c = Char.ofNat 11 ∨ c = Char.ofNat 12

instance (c : Char) : Decidable (isPySpace c) := by unfold isPySpace; infer_instance

/-- Helper for `pySplit`: accumulate the current word (reversed). -/
def pySplitAux : List Char → List Char → List (List Char)
  | [], acc => if acc = [] then [] else [acc.reverse]
  | c :: cs, acc =>
    if isPySpace c then
      (if acc = [] then pySplitAux cs [] else acc.reverse :: pySplitAux cs [])
    else pySplitAux cs (c :: acc)

/-- Python's `str.split()` with no argument: split on whitespace runs,
discarding empty fields. -/
def pySplit (cs : List Char) : List (List Char) := pySplitAux cs []

/-! ## src/app.py and src/json-id-generator.py: sanitizer and extractors -/

/-- `sanitize_text` (both files): `text.encode('utf-8','ignore').decode('utf-8')`.
Every Lean `Char` is a valid Unicode scalar, hence UTF-8 encodable, so the
encode/decode round trip is the identity in this model. -/
def sanitize_text (s : List Char) : List Char := s

/-- An HTML document as parsed by BeautifulSoup: a tree of element nodes
(tag name, attributes, children) and text nodes. -/
inductive Html where
  | text (s : List Char)
  | el (tag : String) (attrs : List (String × List Char)) (children : List Html)

mutual

/-- `soup.find_all(text=True)`: all text nodes, in document order. -/
def textNodes (h : Html) : List (List Char) :=
  match h with
  | .text s => [s]
  | .el _ _ cs => textNodesL cs
termination_by sizeOf h
decreasing_by all_goals (simp_wf <;> omega)

/-- `textNodes` over a child list. -/
def textNodesL (hs : List Html) : List (List Char) :=
  match hs with
  | [] => []
  | h :: rest => textNodes h ++ textNodesL rest
termination_by sizeOf hs
decreasing_by all_goals (simp_wf <;> omega)

end

mutual

/-- `[img['src'] for img in soup.find_all('img') if 'src' in img.attrs]`:
the `src` attribute of every `img` element, in document order. -/
def findAllImgSrc (h : Html) : List (List Char) :=
  match h with
  | .text _ => []
  | .el tag attrs cs =>
    (if tag = "img" then
       match attrs.lookup "src" with
       | some v => [v]
       | none => []
     else []) ++ findAllImgSrcL cs
termination_by sizeOf h
decreasing_by all_goals (simp_wf <;> omega)

/-- `findAllImgSrc` over a child list. -/
def findAllImgSrcL (hs : List Html) : List (List Char) :=
  match hs with
  | [] => []
  | h :: rest => findAllImgSrc h ++ findAllImgSrcL rest
termination_by sizeOf hs
decreasing_by all_goals (simp_wf <;> omega)

end

/-- In BeautifulSoup, `find_all(text=True)` yields `NavigableString`
objects, whose `name` attribute is `None` (they are not tags); the loop
variable in `extract_text_from_web` is such a node. -/
def navStringName : Option String := none

/-- `extract_text_from_web` (src/app.py, lines 30-49), after the HTTP GET
succeeded and `doc` is the parsed response body.  For each node of
`find_all(text=True)`: if `tag.name == 'p'` wrap the sanitized text in
newlines, else whitespace-collapse it (`' '.join(text.split())`) and
concatenate without separator; finally append the space-joined image
`src` values. -/
def extract_text_from_web (doc : Html) : List Char :=
  let images := findAllImgSrc doc
  let formatted := (textNodes doc).foldl
    (fun acc t =>
      if navStringName = some "p" then
        acc ++ '\n' :: sanitize_text t ++ ['\n']
      else
        acc ++ List.intercalate [' '] (pySplit (sanitize_text t)))
    []
  formatted ++ List.intercalate [' '] images

/-- `extract_text_from_json` (src/app.py lines 51-57 and
src/json-id-generator.py lines 155-161): `json.loads` then
`json.dumps(content, indent=2)`; on `json.JSONDecodeError` log the error
and return `None` (here `none`). -/
def extract_text_from_json (cs : List Char) : Option (List Char) :=
  (json_loads cs).map json_dumps

/-! ## Schema generation (both files) -/

/-- Result of `generate_schema`/`compare_schemas`: either the decoded
JSON-LD object or the error-marker mapping `{"error": msg}` (callers
branch on the presence of the `error` key). -/
inductive GenResult where
  | schema (v : JsonVal)
  | errorMarker (msg : String)

/-- One run of the non-retrying `generate_schema` (src/app.py, lines
59-118).  `llm` is the outcome of the single
`client.chat.completions.create` request: `.error e` when the request
raises (message `str(e)`), `.ok response` with the model's text
otherwise.  The second component counts completion requests issued. -/
def app_generate_schema (llm : Except String (List Char)) : GenResult × Nat :=
  match llm with
  | .error e => (.errorMarker e, 1)
  | .ok response =>
    let js := pyFind response '{'
    let je := pyRfind response '}' + 1
    if js = -1 ∨ je = 0 then
      (.errorMarker "No valid JSON found in response", 1)
    else
      match json_loads (pySlice response js je) with
      | some v => (.schema v, 1)
      | none => (.errorMarker "Invalid JSON format in response", 1)

/-- Instrumented outcome of the retrying `generate_schema`: final result,
number of completion requests issued, number of `time.sleep(2)` backoff
delays executed. -/
structure GenRun where
  result : GenResult
  calls : Nat
  sleeps : Nat

/-- The attempt loop of `generate_schema` (src/json-id-generator.py, lines
183-245): `llm i` is the outcome of the completion request on attempt `i`
(0-based), `remaining` the attempts left.  A raised request and the
`ValueError` for a missing brace pair are both caught by the per-attempt
`except`, which logs and sleeps before the next attempt; a JSON decode
failure returns the error marker from inside the attempt. -/
def genAttempts (llm : Nat → Except String (List Char)) : Nat → Nat → GenRun
  | _, 0 => ⟨.errorMarker "Failed to generate schema after multiple attempts", 0, 0⟩
  | attempt, r + 1 =>
    match llm attempt with
    | .error _ =>
      let rec' := genAttempts llm (attempt + 1) r
      ⟨rec'.result, rec'.calls + 1, rec'.sleeps + 1⟩
    | .ok response =>
      let js := pyFind response '{'
      let je := pyRfind response '}' + 1
      if js = -1 ∨ je = 0 then
        let rec' := genAttempts llm (attempt + 1) r
        ⟨rec'.result, rec'.calls + 1, rec'.sleeps + 1⟩
      else
        match json_loads (pySlice response js je) with
        | some v => ⟨.schema v, 1, 0⟩
        | none => ⟨.errorMarker "Invalid JSON format in response", 1, 0⟩

/-- The retrying `generate_schema` (src/json-id-generator.py, lines
183-245), `retries` defaulting to 3 as in the source. -/
def generate_schema_retry (llm : Nat → Except String (List Char))
    (retries : Nat := 3) : GenRun :=
  genAttempts llm 0 retries

/-! ## Schema comparison (both files) -/

/-- Try to match the regex `(\d+(\.\d+)?)%` at the head of the input,
returning the text of group 1. -/
def matchPercentAt (cs : List Char) : Option (List Char) :=
  let d1 := cs.takeWhile Char.isDigit
  if d1 = [] then none
  else
    match cs.dropWhile Char.isDigit with
    | '%' :: _ => some d1
    | '.' :: cs2 =>
      let d2 := cs2.takeWhile Char.isDigit
      if d2 = [] then none
      else
        match cs2.dropWhile Char.isDigit with
        | '%' :: _ => some (d1 ++ '.' :: d2)
        | _ => none
    | _ => none

/-- `re.search(r'(\d+(\.\d+)?)%', response)`: leftmost match of the
percentage pattern, returning group 1. -/
def searchPercent : List Char → Option (List Char)
  | [] => none
  | c :: cs =>
    match matchPercentAt (c :: cs) with
    | some g => some g
    | none => searchPercent cs

/-- Rest of the current line: what `(.+)` captures after a marker. -/
def captureLine (cs : List Char) : List Char := cs.takeWhile (· ≠ '\n')

/-- Fuelled worker for `findAllMarked`. -/
def findAllMarkedF (marker : List Char) : Nat → List Char → List (List Char)
  | 0, _ => []
  | f + 1, cs =>
    match cs with
    | [] => []
    | _ :: cs' =>
      if marker.isPrefixOf cs then
        let after := cs.drop marker.length
        let cap := captureLine after
        if cap = [] then findAllMarkedF marker f cs'
        else cap :: findAllMarkedF marker f (after.drop cap.length)
      else findAllMarkedF marker f cs'

/-- `re.findall(marker + r'(.+)', response)`: every nonempty rest-of-line
following an occurrence of `marker`, non-overlapping, left to right. -/
def findAllMarked (marker : List Char) (cs : List Char) : List (List Char) :=
  findAllMarkedF marker cs.length cs

/-- Result of `compare_schemas`: accuracy (the matched numeral text, which
the source passes to `float`), the two field lists, the full narrative;
or the error-marker mapping. -/
inductive CompResult where
  | result (accuracy : List Char) (missing additional : List (List Char)) (detailed : List Char)
  | errorMarker (msg : String)

/-- `compare_schemas` (src/app.py lines 120-179, src/json-id-generator.py
lines 247-306): one completion request (no retry); the accuracy is the
first percentage-pattern match in the response, whose absence raises a
`ValueError` caught by the outer handler. -/
def compare_schemas (llm : Except String (List Char)) : CompResult :=
  match llm with
  | .error e => .errorMarker e
  | .ok response =>
    match searchPercent response with
    | some acc =>
      .result acc
        (findAllMarked ("Missing fields: ".toList) response)
        (findAllMarked ("Additional fields: ".toList) response)
        response
    | none => .errorMarker "No valid accuracy score found in response"

/-! ## Dynamic extractor (src/json-id-generator.py, class
AdvancedWebContentExtractor) -/

/-- `try ... except Exception: handler` over an exception-transparent
computation. -/
def tryCatchE {β : Type} (x : Except String β) (h : String → Except String β) :
    Except String β :=
  match x with
  | .ok v => .ok v
  | .error e => h e

/-- The per-element body of `expand_all_collapsible_sections` (lines
69-79): scroll into view, sleep, JavaScript click, sleep — summarized by
the oracle `click` — wrapped in the per-element `try`/`except` that only
prints.  Records the element and whether its activation succeeded. -/
def attemptClick (click : Nat → Except String Unit) (e : Nat) :
    Except String (Nat × Bool) :=
  tryCatchE ((click e).map (fun _ => (e, true))) (fun _ => .ok (e, false))

/-- The `for element in collapsible_elements` loop (lines 69-79): an
uncaught exception from an element would abort the remaining elements
(the loop propagates it), but `attemptClick` catches everything. -/
def clickLoop (click : Nat → Except String Unit) : List Nat →
    Except String (List (Nat × Bool))
  | [] => .ok []
  | e :: es =>
    match attemptClick click e with
    | .ok r => (clickLoop click es).map (fun rs => r :: rs)
    | .error err => .error err

/-- One iteration of the `for strategy in expansion_strategies` loop
(lines 64-82): `find i` is `driver.find_elements(By.XPATH, strategy)` for
the `i`-th strategy, `click i` the activation oracle for its elements;
the strategy-level `try`/`except` prints and moves on, recorded as
`none`. -/
def runStrategy (find : Nat → Except String (List Nat))
    (click : Nat → Nat → Except String Unit) (i : Nat) :
    Except String (Option (List (Nat × Bool))) :=
  tryCatchE
    (match find i with
     | .ok es => (clickLoop (click i) es).map some
     | .error err => .error err)
    (fun _ => .ok none)

/-- The strategy loop over the fixed five-strategy list: an uncaught
exception from one strategy would abort the remaining strategies. -/
def strategyLoop (find : Nat → Except String (List Nat))
    (click : Nat → Nat → Except String Unit) : List Nat →
    Except String (List (Option (List (Nat × Bool))))
  | [] => .ok []
  | i :: is =>
    match runStrategy find click i with
    | .ok r => (strategyLoop find click is).map (fun rs => r :: rs)
    | .error err => .error err

/-- `expand_all_collapsible_sections` (lines 46-88): navigate (`nav` is
`driver.get`), then run the five expansion strategies in order, the whole
body wrapped in the outer `try`/`except` that prints.  The result is the
trace: one entry per strategy run (`none` when the strategy's locator
raised, otherwise the elements attempted with their activation outcome). -/
def expand_all_collapsible_sections (nav : Except String Unit)
    (find : Nat → Except String (List Nat))
    (click : Nat → Nat → Except String Unit) :
    Except String (List (Option (List (Nat × Bool)))) :=
  tryCatchE
    (match nav with
     | .ok _ => strategyLoop find click (List.range 5)
     | .error err => .error err)
    (fun _ => .ok [])

/-- `comprehensive_extraction` (src/json-id-generator.py, lines 127-149):
`try:` expand then harvest and return `{'contents': ...}`; `except:`
print and return `None`; `finally:` `if self.driver: self.driver.quit()`.
`__init__` always assigns a live (truthy) driver, so the guard passes;
the Boolean component records whether `driver.quit()` ran.  The phases
are oracles because any Python call may raise. -/
def comprehensive_extraction {γ : Type} (expandPhase : Except String Unit)
    (harvestPhase : Except String γ) : Option γ × Bool :=
  match expandPhase.bind (fun _ => harvestPhase) with
  | .ok contents => (some contents, true)
  | .error _ => (none, true)

/-! ## Whitespace lemmas -/

/-- All characters of `w` are JSON whitespace. -/
def allWs (w : List Char) : Prop := ∀ c ∈ w, isWsChar c

theorem skipWs_not_ws {c : Char} (cs : List Char) (h : ¬ isWsChar c) :
    skipWs (c :: cs) = c :: cs := by
  simp [skipWs, h]

theorem skipWs_ws_append {w : List Char} (cs : List Char) (h : allWs w) :
    skipWs (w ++ cs) = skipWs cs := by
  induction w with
  | nil => rfl
  | cons c w ih =>
    have hc : isWsChar c := h c (by simp)
    simp only [List.cons_append, skipWs, if_pos hc]
    exact ih (fun c hc => h c (by simp [hc]))

theorem skipWs_decomp (cs : List Char) : ∃ w, allWs w ∧ cs = w ++ skipWs cs := by
  induction cs with
  | nil => exact ⟨[], by simp [allWs], rfl⟩
  | cons c cs ih =>
    by_cases hc : isWsChar c
    · obtain ⟨w, hw, hcs⟩ := ih
      refine ⟨c :: w, ?_, ?_⟩
      · intro d hd
        rcases hd with _ | hd
        · exact hc
        · exact hw d (by assumption)
      · simp only [skipWs, if_pos hc, List.cons_append]
        exact congrArg (c :: ·) hcs
    · exact ⟨[], by simp [allWs], by simp [skipWs_not_ws _ hc]⟩

theorem allWs_ind (n : Nat) : allWs (ind n) := by
  intro c hc
  rw [ind, List.mem_replicate] at hc
  exact Or.inl hc.2

theorem allWs_cons {c : Char} {w : List Char} (hc : isWsChar c) (hw : allWs w) :
    allWs (c :: w) := by
  intro d hd
  rcases hd with _ | hd
  · exact hc
  · exact hw d (by assumption)

theorem allWs_one {c : Char} (hc : isWsChar c) : allWs [c] := by
  intro d hd
  simp at hd
  subst hd
  exact hc

/-! ## Whitespace invariance of the parsers -/

theorem parseVal_ws (f : Nat) {w : List Char} (cs : List Char) (h : allWs w) :
    parseVal f (w ++ cs) = parseVal f cs := by
  cases f with
  | zero => rfl
  | succ f => simp only [parseVal, skipWs_ws_append cs h]

theorem parseVal_skipWs (f : Nat) (cs : List Char) :
    parseVal f (skipWs cs) = parseVal f cs := by
  obtain ⟨w, hw, hcs⟩ := skipWs_decomp cs
  conv_rhs => rw [hcs]
  rw [parseVal_ws f _ hw]

theorem parseArrItems_ws (f : Nat) {w : List Char} (cs : List Char) (h : allWs w) :
    parseArrItems f (w ++ cs) = parseArrItems f cs := by
  cases f with
  | zero => rfl
  | succ f => simp only [parseArrItems, parseVal_ws f cs h]

theorem parseArrItems_skipWs (f : Nat) (cs : List Char) :
    parseArrItems f (skipWs cs) = parseArrItems f cs := by
  obtain ⟨w, hw, hcs⟩ := skipWs_decomp cs
  conv_rhs => rw [hcs]
  rw [parseArrItems_ws f _ hw]

theorem parseObjItems_ws (f : Nat) {w : List Char} (cs : List Char) (h : allWs w) :
    parseObjItems f (w ++ cs) = parseObjItems f cs := by
  cases f with
  | zero => rfl
  | succ f => simp only [parseObjItems, skipWs_ws_append cs h]

theorem parseObjItems_skipWs (f : Nat) (cs : List Char) :
    parseObjItems f (skipWs cs) = parseObjItems f cs := by
  obtain ⟨w, hw, hcs⟩ := skipWs_decomp cs
  conv_rhs => rw [hcs]
  rw [parseObjItems_ws f _ hw]

/-! ## Digit and number lemmas -/

/-- The head of the remaining input does not extend a digit run. -/
def headFails (p : Char → Bool) : List Char → Prop
  | [] => True
  | c :: _ => p c = false

/-- The rest of the input after a printed numeral must not begin with a
digit (inside printed arrays and objects it begins with a comma, newline
or closing bracket). -/
def noDigitHead : List Char → Prop := headFails Char.isDigit

theorem isDigit_not_ws {c : Char} (h : c.isDigit = true) : ¬ isWsChar c := by
  intro hw
  rcases hw with rfl | rfl | rfl | rfl <;> exact absurd h (by decide)

theorem isDigit_ne {c c' : Char} (h : c.isDigit = true) (h' : c'.isDigit = false) :
    c ≠ c' := by
  intro e
  rw [e, h'] at h
  cases h

theorem noDigitHead_cons (c : Char) (z : List Char) (h : c.isDigit = false) :
    noDigitHead (c :: z) := h

theorem digitChar_isDigit : ∀ d, d < 10 → (Nat.digitChar d).isDigit = true := by decide

theorem digitVal_digitChar : ∀ d, d < 10 → digitVal (Nat.digitChar d) = d := by decide

theorem natDigitsRev_digits :
    ∀ f n, ∀ c ∈ natDigitsRev f n, c.isDigit = true := by
  intro f
  induction f with
  | zero => intro n c hc; simp [natDigitsRev] at hc
  | succ f ih =>
    intro n c hc
    by_cases hn : n = 0
    · simp [natDigitsRev, hn] at hc
    · rw [natDigitsRev, if_neg hn] at hc
      rcases hc with _ | hc
      · exact digitChar_isDigit _ (Nat.mod_lt _ (by norm_num))
      · exact ih _ c (by assumption)

theorem natVal_aux :
    ∀ f n acc, n ≤ f →
      List.foldl (fun a c => a * 10 + digitVal c) acc (natDigitsRev f n).reverse =
        acc * 10 ^ (natDigitsRev f n).length + n := by
  intro f
  induction f with
  | zero =>
    intro n acc hn
    interval_cases n
    simp [natDigitsRev]
  | succ f ih =>
    intro n acc hn
    by_cases hz : n = 0
    · simp [natDigitsRev, hz]
    · rw [natDigitsRev, if_neg hz]
      rw [List.reverse_cons, List.foldl_append]
      rw [ih (n / 10) acc (by omega)]
      simp only [List.foldl_cons, List.foldl_nil, List.length_cons]
      rw [digitVal_digitChar _ (Nat.mod_lt _ (by norm_num)), pow_succ, ← mul_assoc]
      generalize acc * 10 ^ (natDigitsRev f (n / 10)).length = A
      omega

theorem natVal_natChars (m : Nat) : natVal (natChars m) = m := by
  by_cases hm : m = 0
  · subst hm; decide
  · rw [natChars, if_neg hm, natVal, natVal_aux m m 0 le_rfl]
    simp

theorem natChars_digits (m : Nat) : ∀ c ∈ natChars m, c.isDigit = true := by
  by_cases hm : m = 0
  · subst hm; decide
  · rw [natChars, if_neg hm]
    intro c hc
    exact natDigitsRev_digits m m c (List.mem_reverse.mp hc)

theorem natChars_cons (m : Nat) :
    ∃ c t, natChars m = c :: t ∧ c.isDigit = true := by
  have hne : natChars m ≠ [] := by
    by_cases hm : m = 0
    · subst hm; decide
    · rw [natChars, if_neg hm]
      simp only [ne_eq, List.reverse_eq_nil_iff]
      cases m with
      | zero => exact absurd rfl hm
      | succ k =>
        rw [natDigitsRev, if_neg hm]
        simp
  cases h : natChars m with
  | nil => exact absurd h hne
  | cons c t => exact ⟨c, t, rfl, natChars_digits m c (by rw [h]; simp)⟩

theorem takeWhile_append_all {p : Char → Bool} (xs ys : List Char)
    (hx : ∀ c ∈ xs, p c = true) (hy : headFails p ys) :
    (xs ++ ys).takeWhile p = xs ∧ (xs ++ ys).dropWhile p = ys := by
  induction xs with
  | nil =>
    cases ys with
    | nil => exact ⟨rfl, rfl⟩
    | cons d ds =>
      have hd : p d = false := hy
      constructor
      · simp [List.takeWhile_cons, hd]
      · simp [List.dropWhile_cons, hd]
  | cons x xs ih =>
    have hx0 : p x = true := hx x (by simp)
    have ih' := ih (fun c hc => hx c (by simp [hc]))
    constructor
    · simp [List.takeWhile_cons, hx0, ih'.1]
    · simp [List.dropWhile_cons, hx0, ih'.2]

theorem parseNatPart_natChars (m : Nat) {rest : List Char} (hrest : noDigitHead rest) :
    parseNatPart (natChars m ++ rest) = some (m, rest) := by
  obtain ⟨htake, hdrop⟩ := takeWhile_append_all (natChars m) rest (natChars_digits m) hrest
  rw [parseNatPart]
  simp only [htake, hdrop]
  obtain ⟨c, t, hct, _⟩ := natChars_cons m
  rw [if_neg (by simp [hct]), natVal_natChars]

theorem parseNumber_printNum (n : Int) {rest : List Char} (hrest : noDigitHead rest) :
    parseNumber (printNum n ++ rest) = some (.num n, rest) := by
  by_cases hn : n < 0
  · rw [printNum, if_pos hn, List.cons_append, parseNumber, if_pos rfl,
      parseNatPart_natChars n.natAbs hrest]
    simp only [Option.map_some']
    have : -((n.natAbs : Nat) : Int) = n := by omega
    rw [this]
  · obtain ⟨c, t, hct, hcd⟩ := natChars_cons n.natAbs
    rw [printNum, if_neg hn, hct, List.cons_append, parseNumber,
      if_neg (isDigit_ne hcd (by decide)), ← List.cons_append, ← hct,
      parseNatPart_natChars n.natAbs hrest]
    simp only [Option.map_some']
    have : ((n.natAbs : Nat) : Int) = n := by omega
    rw [this]

/-! ## String literal round trip -/

theorem decodeHexDigit_digitChar :
    ∀ d, d < 16 → decodeHexDigit (Nat.digitChar d) = some d := by decide

theorem decodeHex4_zeros (m : Nat) (hm : m < 256) :
    decodeHex4 '0' '0' (Nat.digitChar (m / 16)) (Nat.digitChar (m % 16)) = some m := by
  rw [decodeHex4, show decodeHexDigit '0' = some 0 from rfl,
    decodeHexDigit_digitChar _ (by omega), decodeHexDigit_digitChar _ (by omega)]
  simp only [Option.some.injEq]
  omega

theorem parseStringBody_u (f m : Nat) (hm : m < 256) (X : List Char) :
    parseStringBody (f + 1) ('\\' :: 'u' :: '0' :: '0' :: Nat.digitChar (m / 16) ::
        Nat.digitChar (m % 16) :: X) =
      (parseStringBody f X).map (fun p => (Char.ofNat m :: p.1, p.2)) := by
  show (match decodeHex4 '0' '0' (Nat.digitChar (m / 16)) (Nat.digitChar (m % 16)) with
        | some n => (parseStringBody f X).map (fun p => (Char.ofNat n :: p.1, p.2))
        | none => none) =
      (parseStringBody f X).map (fun p => (Char.ofNat m :: p.1, p.2))
  rw [decodeHex4_zeros m hm]

theorem escapeChar_length_pos (c : Char) : 1 ≤ (escapeChar c).length := by
  unfold escapeChar
  split_ifs <;> simp

theorem length_le_flatten_escape (s : List Char) :
    s.length ≤ ((s.map escapeChar).flatten).length := by
  induction s with
  | nil => simp
  | cons c s ih =>
    simp only [List.map_cons, List.flatten_cons, List.length_append, List.length_cons]
    have := escapeChar_length_pos c
    omega

theorem parseStringBody_print (s : List Char) :
    ∀ f rest, s.length < f →
      parseStringBody f ((s.map escapeChar).flatten ++ '"' :: rest) = some (s, rest) := by
  induction s with
  | nil =>
    intro f rest hf
    cases f with
    | zero => omega
    | succ f => rfl
  | cons c s ih =>
    intro f rest hf
    cases f with
    | zero => omega
    | succ f =>
    have hf' : s.length < f := by simp at hf; omega
    simp only [List.map_cons, List.flatten_cons, List.append_assoc]
    by_cases h1 : c = '"'
    · subst h1
      show (parseStringBody f ((s.map escapeChar).flatten ++ '"' :: rest)).map
          (fun p => ('"' :: p.1, p.2)) = _
      rw [ih f rest hf']
      rfl
    by_cases h2 : c = '\\'
    · subst h2
      show (parseStringBody f ((s.map escapeChar).flatten ++ '"' :: rest)).map
          (fun p => ('\\' :: p.1, p.2)) = _
      rw [ih f rest hf']
      rfl
    by_cases h3 : c = '\n'
    · subst h3
      show (parseStringBody f ((s.map escapeChar).flatten ++ '"' :: rest)).map
          (fun p => ('\n' :: p.1, p.2)) = _
      rw [ih f rest hf']
      rfl
    by_cases h4 : c = '\t'
    · subst h4
      show (parseStringBody f ((s.map escapeChar).flatten ++ '"' :: rest)).map
          (fun p => ('\t' :: p.1, p.2)) = _
      rw [ih f rest hf']
      rfl
    by_cases h5 : c = '\r'
    · subst h5
      show (parseStringBody f ((s.map escapeChar).flatten ++ '"' :: rest)).map
          (fun p => ('\r' :: p.1, p.2)) = _
      rw [ih f rest hf']
      rfl
    by_cases h6 : c = Char.ofNat 8
    · subst h6
      show (parseStringBody f ((s.map escapeChar).flatten ++ '"' :: rest)).map
          (fun p => (Char.ofNat 8 :: p.1, p.2)) = _
      rw [ih f rest hf']
      rfl
    by_cases h7 : c = Char.ofNat 12
    · subst h7
      show (parseStringBody f ((s.map escapeChar).flatten ++ '"' :: rest)).map
          (fun p => (Char.ofNat 12 :: p.1, p.2)) = _
      rw [ih f rest hf']
      rfl
    by_cases h8 : c.toNat < 32
    · rw [escapeChar, if_neg h1, if_neg h2, if_neg h3, if_neg h4, if_neg h5, if_neg h6,
        if_neg h7, if_pos h8]
      simp only [List.cons_append, List.nil_append]
      rw [parseStringBody_u f c.toNat (by omega), ih f rest hf', Char.ofNat_toNat]
      rfl
    · rw [escapeChar, if_neg h1, if_neg h2, if_neg h3, if_neg h4, if_neg h5, if_neg h6,
        if_neg h7, if_neg h8]
      simp only [List.cons_append, List.nil_append, parseStringBody]
      rw [if_neg h1, if_neg h2, if_pos (show 32 ≤ c.toNat by omega), ih f rest hf']
      rfl

/-! ## Fuel requirements for the parser -/

mutual

/-- Fuel needed by `parseVal` to parse the printed form of `v`. -/
def fv (v : JsonVal) : Nat :=
  match v with
  | .null => 1
  | .bool _ => 1
  | .num _ => 1
  | .str _ => 1
  | .arr [] => 1
  | .arr (x :: xs) => 1 + fitemsA x xs
  | .obj [] => 1
  | .obj ((_, w) :: ps) => 1 + fitemsO w ps
termination_by sizeOf v
decreasing_by all_goals (simp_wf <;> omega)

/-- Fuel needed by `parseArrItems` for the printed items `x :: xs`. -/
def fitemsA (x : JsonVal) (xs : List JsonVal) : Nat :=
  match xs with
  | [] => 1 + fv x
  | y :: ys => 1 + fv x + fitemsA y ys
termination_by sizeOf x + sizeOf xs
decreasing_by all_goals (simp_wf <;> omega)

/-- Fuel needed by `parseObjItems` for the printed members `(k, v) :: ps`. -/
def fitemsO (v : JsonVal) (ps : List (List Char × JsonVal)) : Nat :=
  match ps with
  | [] => 1 + fv v
  | (_, v') :: qs => 1 + fv v + fitemsO v' qs
termination_by sizeOf v + sizeOf ps
decreasing_by all_goals (simp_wf <;> omega)

end

theorem fv_pos (v : JsonVal) : 1 ≤ fv v := by
  cases v with
  | arr xs => cases xs <;> simp [fv]
  | obj ms =>
    cases ms with
    | nil => simp [fv]
    | cons m ms => obtain ⟨k, w⟩ := m; simp [fv]
  | _ => simp [fv]

theorem fitemsA_pos (x : JsonVal) (xs : List JsonVal) : 1 ≤ fitemsA x xs := by
  cases xs with
  | nil => simp [fitemsA]
  | cons y ys => simp only [fitemsA]; omega

theorem fitemsO_pos (v : JsonVal) (ps : List (List Char × JsonVal)) :
    1 ≤ fitemsO v ps := by
  cases ps with
  | nil => simp [fitemsO]
  | cons q qs =>
    obtain ⟨k, w⟩ := q
    simp only [fitemsO]
    omega

/-! ## Head characters of printed values -/

theorem printNum_head (n : Int) :
    ∃ c t, printNum n = c :: t ∧ (c.isDigit = true ∨ c = '-') := by
  by_cases hn : n < 0
  · exact ⟨'-', natChars n.natAbs, by rw [printNum, if_pos hn], Or.inr rfl⟩
  · obtain ⟨c, t, hct, hcd⟩ := natChars_cons n.natAbs
    exact ⟨c, t, by rw [printNum, if_neg hn, hct], Or.inl hcd⟩

theorem printNum_length_pos (n : Int) : 1 ≤ (printNum n).length := by
  obtain ⟨c, t, hct, _⟩ := printNum_head n
  simp [hct]

theorem printJson_head (lvl : Nat) (v : JsonVal) :
    ∃ c t, printJson lvl v = c :: t ∧ ¬ isWsChar c ∧ c ≠ ']' ∧ c ≠ '}' := by
  cases v with
  | null =>
    refine ⟨'n', ['u', 'l', 'l'], ?_, by decide, by decide, by decide⟩
    simp only [printJson]
    rfl
  | bool b =>
    cases b with
    | true =>
      refine ⟨'t', ['r', 'u', 'e'], ?_, by decide, by decide, by decide⟩
      simp only [printJson]
      rfl
    | false =>
      refine ⟨'f', ['a', 'l', 's', 'e'], ?_, by decide, by decide, by decide⟩
      simp only [printJson]
      rfl
  | num n =>
    obtain ⟨c, t, hct, hcd⟩ := printNum_head n
    refine ⟨c, t, by simp [printJson, hct], ?_, ?_, ?_⟩
    · rcases hcd with hcd | rfl
      · exact isDigit_not_ws hcd
      · decide
    · rcases hcd with hcd | rfl
      · exact isDigit_ne hcd (by decide)
      · decide
    · rcases hcd with hcd | rfl
      · exact isDigit_ne hcd (by decide)
      · decide
  | str s =>
    exact ⟨'"', (s.map escapeChar).flatten ++ ['"'],
      by simp [printJson, printStr], by decide, by decide, by decide⟩
  | arr xs =>
    cases xs with
    | nil => exact ⟨'[', [']'], by simp [printJson], by decide, by decide, by decide⟩
    | cons x xs =>
      exact ⟨'[', '\n' :: (printItemsA (lvl + 2) x xs ++ '\n' :: (ind lvl ++ [']'])),
        by simp [printJson], by decide, by decide, by decide⟩
  | obj ms =>
    cases ms with
    | nil => exact ⟨'{', ['}'], by simp [printJson], by decide, by decide, by decide⟩
    | cons m ms =>
      obtain ⟨k, w⟩ := m
      exact ⟨'{', '\n' :: (printItemsO (lvl + 2) k w ms ++ '\n' :: (ind lvl ++ ['}'])),
        by simp [printJson], by decide, by decide, by decide⟩

/-! ## Fuel bounds in terms of printed length -/

mutual

theorem fv_le_print (lvl : Nat) (v : JsonVal) : fv v ≤ (printJson lvl v).length := by
  cases v with
  | null =>
    simp only [fv, printJson]
    decide
  | bool b =>
    cases b <;> (simp only [fv, printJson]; decide)
  | num n =>
    have := printNum_length_pos n
    simp only [fv, printJson]
    omega
  | str s => simp [fv, printJson, printStr]
  | arr xs =>
    cases xs with
    | nil => simp [fv, printJson]
    | cons x xs =>
      have h := fitemsA_le_print (lvl + 2) x xs
      simp only [fv, printJson, List.length_cons, List.length_append, ind,
        List.length_replicate]
      omega
  | obj ms =>
    cases ms with
    | nil => simp [fv, printJson]
    | cons m ms =>
      obtain ⟨k, w⟩ := m
      have h := fitemsO_le_print (lvl + 2) k w ms
      simp only [fv, printJson, List.length_cons, List.length_append, ind,
        List.length_replicate]
      omega
termination_by sizeOf v
decreasing_by all_goals (simp_wf <;> omega)

theorem fitemsA_le_print (l : Nat) (x : JsonVal) (xs : List JsonVal) :
    fitemsA x xs ≤ (printItemsA l x xs).length + 1 := by
  cases xs with
  | nil =>
    have h := fv_le_print l x
    simp only [fitemsA, printItemsA, List.length_append, ind, List.length_replicate]
    omega
  | cons y ys =>
    have h1 := fv_le_print l x
    have h2 := fitemsA_le_print l y ys
    simp only [fitemsA, printItemsA, List.length_append, List.length_cons, ind,
      List.length_replicate]
    omega
termination_by sizeOf x + sizeOf xs
decreasing_by all_goals (simp_wf <;> omega)

theorem fitemsO_le_print (l : Nat) (k : List Char) (v : JsonVal)
    (ps : List (List Char × JsonVal)) :
    fitemsO v ps ≤ (printItemsO l k v ps).length + 1 := by
  cases ps with
  | nil =>
    have h := fv_le_print l v
    simp only [fitemsO, printItemsO, List.length_append, List.length_cons, ind,
      List.length_replicate]
    omega
  | cons q qs =>
    obtain ⟨k', v'⟩ := q
    have h1 := fv_le_print l v
    have h2 := fitemsO_le_print l k' v' qs
    simp only [fitemsO, printItemsO, List.length_append, List.length_cons, ind,
      List.length_replicate]
    omega
termination_by sizeOf v + sizeOf ps
decreasing_by all_goals (simp_wf <;> omega)

end

/-! ## Parser dispatch helpers -/

theorem parseVal_quote (f : Nat) (R : List Char) :
    parseVal (f + 1) ('"' :: R) =
      (parseStringBody (R.length + 1) R).map (fun p => (.str p.1, p.2)) := rfl

theorem parseVal_lbrack (f : Nat) (R : List Char) :
    parseVal (f + 1) ('[' :: R) =
      (match skipWs R with
       | ']' :: r' => some (.arr [], r')
       | r' => (parseArrItems f r').map (fun p => (.arr p.1, p.2))) := rfl

theorem parseVal_lbrace (f : Nat) (R : List Char) :
    parseVal (f + 1) ('{' :: R) =
      (match skipWs R with
       | '}' :: r' => some (.obj [], r')
       | r' => (parseObjItems f r').map (fun p => (.obj p.1, p.2))) := rfl

theorem parseVal_lbrack_ne (f : Nat) (R : List Char) (c : Char) (T : List Char)
    (hR : skipWs R = c :: T) (hne : c ≠ ']') :
    parseVal (f + 1) ('[' :: R) =
      (parseArrItems f (c :: T)).map (fun p => (.arr p.1, p.2)) := by
  rw [parseVal_lbrack, hR]
  split
  · next _ r' heq =>
    rw [List.cons_eq_cons] at heq
    exact absurd heq.1 hne
  · rfl

theorem parseVal_lbrace_ne (f : Nat) (R : List Char) (c : Char) (T : List Char)
    (hR : skipWs R = c :: T) (hne : c ≠ '}') :
    parseVal (f + 1) ('{' :: R) =
      (parseObjItems f (c :: T)).map (fun p => (.obj p.1, p.2)) := by
  rw [parseVal_lbrace, hR]
  split
  · next _ r' heq =>
    rw [List.cons_eq_cons] at heq
    exact absurd heq.1 hne
  · rfl

theorem skipWs_printItemsA (l : Nat) (x : JsonVal) (xs : List JsonVal) (Z : List Char) :
    ∃ W, skipWs (printItemsA l x xs ++ Z) = printJson l x ++ W := by
  obtain ⟨c, t, hph, hnw, _, _⟩ := printJson_head l x
  cases xs with
  | nil =>
    simp only [printItemsA, List.append_assoc]
    rw [skipWs_ws_append _ (allWs_ind l), hph, List.cons_append, skipWs_not_ws _ hnw,
      ← List.cons_append, ← hph]
    exact ⟨Z, rfl⟩
  | cons y ys =>
    simp only [printItemsA, List.append_assoc, List.cons_append]
    rw [skipWs_ws_append _ (allWs_ind l), hph, List.cons_append, skipWs_not_ws _ hnw,
      ← List.cons_append, ← hph]
    exact ⟨_, rfl⟩

theorem skipWs_printItemsO (l : Nat) (k : List Char) (v : JsonVal)
    (ps : List (List Char × JsonVal)) (Z : List Char) :
    ∃ W, skipWs (printItemsO l k v ps ++ Z) = '"' :: W := by
  cases ps with
  | nil =>
    simp only [printItemsO, printStr, List.append_assoc, List.cons_append]
    rw [skipWs_ws_append _ (allWs_ind l), skipWs_not_ws _ (by decide)]
    exact ⟨_, rfl⟩
  | cons q qs =>
    obtain ⟨k2, v2⟩ := q
    simp only [printItemsO, printStr, List.append_assoc, List.cons_append]
    rw [skipWs_ws_append _ (allWs_ind l), skipWs_not_ws _ (by decide)]
    exact ⟨_, rfl⟩

/-! ## The printer output parses back to the printed value -/

theorem parse_print (f : Nat) :
    (∀ lvl v rest, fv v ≤ f → noDigitHead rest →
        parseVal f (printJson lvl v ++ rest) = some (v, rest)) ∧
    (∀ l x xs pre rest, fitemsA x xs ≤ f → allWs pre →
        parseArrItems f (printItemsA l x xs ++ '\n' :: (pre ++ ']' :: rest)) =
          some (x :: xs, rest)) ∧
    (∀ l k v ps pre rest, fitemsO v ps ≤ f → allWs pre →
        parseObjItems f (printItemsO l k v ps ++ '\n' :: (pre ++ '}' :: rest)) =
          some ((k, v) :: ps, rest)) := by
  induction f with
  | zero =>
    refine ⟨?_, ?_, ?_⟩
    · intro lvl v rest hf _
      exact absurd hf (by have := fv_pos v; omega)
    · intro l x xs pre rest hf _
      exact absurd hf (by have := fitemsA_pos x xs; omega)
    · intro l k v ps pre rest hf _
      exact absurd hf (by have := fitemsO_pos v ps; omega)
  | succ f ih =>
    obtain ⟨IH1, IH2, IH3⟩ := ih
    refine ⟨?_, ?_, ?_⟩
    · -- parseVal on a printed value
      intro lvl v rest hfv hrest
      cases v with
      | null => simp only [printJson]; rfl
      | bool b => cases b <;> (simp only [printJson]; rfl)
      | num n =>
        obtain ⟨c, t, hct, hcd⟩ := printNum_head n
        have hnws : ¬ isWsChar c := by
          rcases hcd with hcd | rfl
          · exact isDigit_not_ws hcd
          · decide
        simp only [printJson, hct, List.cons_append, parseVal, skipWs_not_ws _ hnws]
        rw [if_pos hcd, ← List.cons_append, ← hct]
        exact parseNumber_printNum n hrest
      | str s =>
        simp only [printJson, printStr, List.cons_append, List.append_assoc,
          List.singleton_append, List.nil_append]
        rw [parseVal_quote, parseStringBody_print s _ rest ?hlen]
        · rfl
        case hlen =>
          have := length_le_flatten_escape s
          simp only [List.length_append, List.length_cons]
          omega
      | arr items =>
        cases items with
        | nil => simp only [printJson]; rfl
        | cons x xs =>
          have hfi : fitemsA x xs ≤ f := by simp only [fv] at hfv; omega
          simp only [printJson, List.cons_append, List.append_assoc,
            List.singleton_append, List.nil_append]
          obtain ⟨W, hskip⟩ :=
            skipWs_printItemsA (lvl + 2) x xs ('\n' :: (ind lvl ++ ']' :: rest))
          obtain ⟨c, t, hph, hnw, hne1, hne2⟩ := printJson_head (lvl + 2) x
          have hskip' : skipWs ('\n' ::
              (printItemsA (lvl + 2) x xs ++ ('\n' :: (ind lvl ++ ']' :: rest)))) =
              c :: (t ++ W) := by
            rw [show ('\n' :: (printItemsA (lvl + 2) x xs ++
                  ('\n' :: (ind lvl ++ ']' :: rest))) : List Char) =
                ['\n'] ++ (printItemsA (lvl + 2) x xs ++
                  ('\n' :: (ind lvl ++ ']' :: rest))) from rfl,
              skipWs_ws_append _ (allWs_one (by decide)), hskip, hph, List.cons_append]
          rw [parseVal_lbrack_ne f _ c (t ++ W) hskip' hne1]
          have hconv : parseArrItems f (c :: (t ++ W)) =
              some (x :: xs, rest) := by
            rw [← List.cons_append, ← hph, ← hskip, parseArrItems_skipWs]
            exact IH2 (lvl + 2) x xs (ind lvl) rest hfi (allWs_ind lvl)
          rw [hconv]
          rfl
      | obj members =>
        cases members with
        | nil => simp only [printJson]; rfl
        | cons m ms =>
          obtain ⟨k, w⟩ := m
          have hfo : fitemsO w ms ≤ f := by simp only [fv] at hfv; omega
          simp only [printJson, List.cons_append, List.append_assoc,
            List.singleton_append, List.nil_append]
          obtain ⟨W, hskip⟩ :=
            skipWs_printItemsO (lvl + 2) k w ms ('\n' :: (ind lvl ++ '}' :: rest))
          have hskip' : skipWs ('\n' ::
              (printItemsO (lvl + 2) k w ms ++ ('\n' :: (ind lvl ++ '}' :: rest)))) =
              '"' :: W := by
            rw [show ('\n' :: (printItemsO (lvl + 2) k w ms ++
                  ('\n' :: (ind lvl ++ '}' :: rest))) : List Char) =
                ['\n'] ++ (printItemsO (lvl + 2) k w ms ++
                  ('\n' :: (ind lvl ++ '}' :: rest))) from rfl,
              skipWs_ws_append _ (allWs_one (by decide)), hskip]
          rw [parseVal_lbrace_ne f _ '"' W hskip' (by decide)]
          have hconv : parseObjItems f ('"' :: W) = some ((k, w) :: ms, rest) := by
            rw [← hskip, parseObjItems_skipWs]
            exact IH3 (lvl + 2) k w ms (ind lvl) rest hfo (allWs_ind lvl)
          rw [hconv]
          rfl
    · -- parseArrItems on printed items
      intro l x xs pre rest hfi hpre
      have hfx : fv x ≤ f := by
        cases xs with
        | nil => simp only [fitemsA] at hfi; omega
        | cons y ys =>
          have := fitemsA_pos y ys
          simp only [fitemsA] at hfi
          omega
      have hsk : skipWs ('\n' :: (pre ++ ']' :: rest)) = ']' :: rest := by
        rw [show ('\n' :: (pre ++ ']' :: rest) : List Char) =
            ('\n' :: pre) ++ ']' :: rest from by simp,
          skipWs_ws_append _ (allWs_cons (by decide) hpre),
          skipWs_not_ws _ (by decide)]
      cases xs with
      | nil =>
        simp only [printItemsA, List.append_assoc]
        rw [parseArrItems_ws _ _ (allWs_ind l)]
        have h1 := IH1 l x ('\n' :: (pre ++ ']' :: rest)) hfx
          (noDigitHead_cons _ _ (by decide))
        simp only [parseArrItems, h1, hsk]
      | cons y ys =>
        have hfi' : fitemsA y ys ≤ f := by
          have := fv_pos x
          simp only [fitemsA] at hfi
          omega
        simp only [printItemsA, List.append_assoc, List.cons_append]
        rw [parseArrItems_ws _ _ (allWs_ind l)]
        have h1 := IH1 l x
          (',' :: '\n' :: (printItemsA l y ys ++ '\n' :: (pre ++ ']' :: rest))) hfx
          (noDigitHead_cons _ _ (by decide))
        have hsk2 : skipWs
            (',' :: '\n' :: (printItemsA l y ys ++ '\n' :: (pre ++ ']' :: rest))) =
            ',' :: '\n' :: (printItemsA l y ys ++ '\n' :: (pre ++ ']' :: rest)) :=
          skipWs_not_ws _ (by decide)
        have h2 : parseArrItems f
            ('\n' :: (printItemsA l y ys ++ '\n' :: (pre ++ ']' :: rest))) =
            some (y :: ys, rest) := by
          rw [show ('\n' :: (printItemsA l y ys ++ '\n' :: (pre ++ ']' :: rest)) :
              List Char) =
              ['\n'] ++ (printItemsA l y ys ++ '\n' :: (pre ++ ']' :: rest)) from rfl,
            parseArrItems_ws _ _ (allWs_one (by decide))]
          exact IH2 l y ys pre rest hfi' hpre
        simp only [parseArrItems, h1, hsk2, h2]
        rfl
    · -- parseObjItems on printed members
      intro l k v ps pre rest hfo hpre
      have hfv' : fv v ≤ f := by
        cases ps with
        | nil => simp only [fitemsO] at hfo; omega
        | cons q qs =>
          obtain ⟨k2, v2⟩ := q
          have := fitemsO_pos v2 qs
          simp only [fitemsO] at hfo
          omega
      have hsk : skipWs ('\n' :: (pre ++ '}' :: rest)) = '}' :: rest := by
        rw [show ('\n' :: (pre ++ '}' :: rest) : List Char) =
            ('\n' :: pre) ++ '}' :: rest from by simp,
          skipWs_ws_append _ (allWs_cons (by decide) hpre),
          skipWs_not_ws _ (by decide)]
      cases ps with
      | nil =>
        simp only [printItemsO, printStr, List.append_assoc, List.cons_append,
          List.singleton_append, List.nil_append]
        rw [parseObjItems_ws _ _ (allWs_ind l)]
        have hq : skipWs ('"' :: ((k.map escapeChar).flatten ++ '"' ::
            (':' :: ' ' :: (printJson l v ++ '\n' :: (pre ++ '}' :: rest))))) =
            '"' :: ((k.map escapeChar).flatten ++ '"' ::
            (':' :: ' ' :: (printJson l v ++ '\n' :: (pre ++ '}' :: rest)))) :=
          skipWs_not_ws _ (by decide)
        have hps : parseStringBody
            (((k.map escapeChar).flatten ++ '"' ::
              (':' :: ' ' :: (printJson l v ++ '\n' :: (pre ++ '}' :: rest)))).length + 1)
            ((k.map escapeChar).flatten ++ '"' ::
              (':' :: ' ' :: (printJson l v ++ '\n' :: (pre ++ '}' :: rest)))) =
            some (k, ':' :: ' ' :: (printJson l v ++ '\n' :: (pre ++ '}' :: rest))) := by
          apply parseStringBody_print
          have := length_le_flatten_escape k
          simp only [List.length_append, List.length_cons]
          omega
        have hc1 : skipWs (':' :: ' ' :: (printJson l v ++ '\n' :: (pre ++ '}' :: rest))) =
            ':' :: ' ' :: (printJson l v ++ '\n' :: (pre ++ '}' :: rest)) :=
          skipWs_not_ws _ (by decide)
        have h1 : parseVal f (' ' :: (printJson l v ++ '\n' :: (pre ++ '}' :: rest))) =
            some (v, '\n' :: (pre ++ '}' :: rest)) := by
          rw [show (' ' :: (printJson l v ++ '\n' :: (pre ++ '}' :: rest)) : List Char) =
              [' '] ++ (printJson l v ++ '\n' :: (pre ++ '}' :: rest)) from rfl,
            parseVal_ws _ _ (allWs_one (by decide))]
          exact IH1 l v _ hfv' (noDigitHead_cons _ _ (by decide))
        simp only [parseObjItems, hq, hps, hc1, h1, hsk]
      | cons q qs =>
        obtain ⟨k2, v2⟩ := q
        have hfo' : fitemsO v2 qs ≤ f := by
          have := fv_pos v
          simp only [fitemsO] at hfo
          omega
        simp only [printItemsO, printStr, List.append_assoc, List.cons_append,
          List.singleton_append, List.nil_append]
        rw [parseObjItems_ws _ _ (allWs_ind l)]
        have hq : skipWs ('"' :: ((k.map escapeChar).flatten ++ '"' ::
            (':' :: ' ' :: (printJson l v ++ ',' :: '\n' ::
              (printItemsO l k2 v2 qs ++ '\n' :: (pre ++ '}' :: rest)))))) =
            '"' :: ((k.map escapeChar).flatten ++ '"' ::
            (':' :: ' ' :: (printJson l v ++ ',' :: '\n' ::
              (printItemsO l k2 v2 qs ++ '\n' :: (pre ++ '}' :: rest))))) :=
          skipWs_not_ws _ (by decide)
        have hps : parseStringBody
            (((k.map escapeChar).flatten ++ '"' ::
              (':' :: ' ' :: (printJson l v ++ ',' :: '\n' ::
                (printItemsO l k2 v2 qs ++ '\n' :: (pre ++ '}' :: rest))))).length + 1)
            ((k.map escapeChar).flatten ++ '"' ::
              (':' :: ' ' :: (printJson l v ++ ',' :: '\n' ::
                (printItemsO l k2 v2 qs ++ '\n' :: (pre ++ '}' :: rest))))) =
            some (k, ':' :: ' ' :: (printJson l v ++ ',' :: '\n' ::
              (printItemsO l k2 v2 qs ++ '\n' :: (pre ++ '}' :: rest)))) := by
          apply parseStringBody_print
          have := length_le_flatten_escape k
          simp only [List.length_append, List.length_cons]
          omega
        have hc1 : skipWs (':' :: ' ' :: (printJson l v ++ ',' :: '\n' ::
            (printItemsO l k2 v2 qs ++ '\n' :: (pre ++ '}' :: rest)))) =
            ':' :: ' ' :: (printJson l v ++ ',' :: '\n' ::
            (printItemsO l k2 v2 qs ++ '\n' :: (pre ++ '}' :: rest))) :=
          skipWs_not_ws _ (by decide)
        have h1 : parseVal f (' ' :: (printJson l v ++ ',' :: '\n' ::
            (printItemsO l k2 v2 qs ++ '\n' :: (pre ++ '}' :: rest)))) =
            some (v, ',' :: '\n' ::
              (printItemsO l k2 v2 qs ++ '\n' :: (pre ++ '}' :: rest))) := by
          rw [show (' ' :: (printJson l v ++ ',' :: '\n' ::
              (printItemsO l k2 v2 qs ++ '\n' :: (pre ++ '}' :: rest))) : List Char) =
              [' '] ++ (printJson l v ++ ',' :: '\n' ::
              (printItemsO l k2 v2 qs ++ '\n' :: (pre ++ '}' :: rest))) from rfl,
            parseVal_ws _ _ (allWs_one (by decide))]
          exact IH1 l v _ hfv' (noDigitHead_cons _ _ (by decide))
        have hc2 : skipWs (',' :: '\n' ::
            (printItemsO l k2 v2 qs ++ '\n' :: (pre ++ '}' :: rest))) =
            ',' :: '\n' :: (printItemsO l k2 v2 qs ++ '\n' :: (pre ++ '}' :: rest)) :=
          skipWs_not_ws _ (by decide)
        have hobj : parseObjItems f ('\n' ::
            (printItemsO l k2 v2 qs ++ '\n' :: (pre ++ '}' :: rest))) =
            some ((k2, v2) :: qs, rest) := by
          rw [show ('\n' :: (printItemsO l k2 v2 qs ++ '\n' :: (pre ++ '}' :: rest)) :
              List Char) =
              ['\n'] ++ (printItemsO l k2 v2 qs ++ '\n' :: (pre ++ '}' :: rest)) from rfl,
            parseObjItems_ws _ _ (allWs_one (by decide))]
          exact IH3 l k2 v2 qs pre rest hfo' hpre
        simp only [parseObjItems, hq, hps, hc1, h1, hc2, hobj]
        rfl

/-- Round trip: `json.dumps(v, indent=2)` re-parses to `v`. -/
theorem json_loads_dumps (v : JsonVal) : json_loads (json_dumps v) = some v := by
  have h := (parse_print ((printJson 0 v).length + 1)).1 0 v []
    (by have := fv_le_print 0 v; omega)
    (by constructor)
  rw [List.append_nil] at h
  simp only [json_loads, json_dumps, h]
  rfl

/-! ## Behaviour of the expand phase (dynamic extractor) -/

theorem clickLoop_ok (click : Nat → Except String Unit) (es : List Nat) :
    clickLoop click es =
      .ok (es.map (fun e =>
        (e, match click e with | .ok _ => true | .error _ => false))) := by
  induction es with
  | nil => rfl
  | cons e es ih =>
    simp only [clickLoop, attemptClick, tryCatchE, List.map_cons]
    cases h : click e <;> simp [h, ih, Except.map]

theorem runStrategy_ok (find : Nat → Except String (List Nat))
    (click : Nat → Nat → Except String Unit) (i : Nat) :
    runStrategy find click i =
      .ok (match find i with
           | .ok es => some (es.map (fun e =>
               (e, match click i e with | .ok _ => true | .error _ => false)))
           | .error _ => none) := by
  cases h : find i <;> simp [runStrategy, tryCatchE, h, clickLoop_ok, Except.map]

theorem strategyLoop_ok (find : Nat → Except String (List Nat))
    (click : Nat → Nat → Except String Unit) (is : List Nat) :
    strategyLoop find click is =
      .ok (is.map (fun i =>
        match find i with
        | .ok es => some (es.map (fun e =>
            (e, match click i e with | .ok _ => true | .error _ => false)))
        | .error _ => none)) := by
  induction is with
  | nil => rfl
  | cons i is ih => simp [strategyLoop, runStrategy_ok, ih, Except.map]

/-! ## Claim theorems -/

/-- C1: if the completion request raises a transport exception on every
attempt, the retrying `generate_schema` of src/json-id-generator.py issues
exactly `n` completion requests (the configured retry bound, default 3),
executes the fixed `time.sleep(2)` delay after each failed attempt, and
returns the exhaustion error marker
mapping from `error` to `Failed to generate schema after multiple attempts`. -/
theorem c1_retry_exhaustion (llm : Nat → Except String (List Char)) (n : Nat)
    (h : ∀ i, i < n → ∃ e, llm i = Except.error e) :
    generate_schema_retry llm n =
      ⟨.errorMarker "Failed to generate schema after multiple attempts", n, n⟩ := by
  suffices haux : ∀ r a, (∀ i, a ≤ i → i < a + r → ∃ e, llm i = Except.error e) →
      genAttempts llm a r =
        ⟨.errorMarker "Failed to generate schema after multiple attempts", r, r⟩ by
    exact haux n 0 (fun i _ hi => h i (by omega))
  intro r
  induction r with
  | zero => intro a _; rfl
  | succ r ih =>
    intro a ha
    obtain ⟨e, he⟩ := ha a (le_refl a) (by omega)
    simp only [genAttempts, he]
    rw [ih (a + 1) (fun i h1 h2 => ha i (by omega) (by omega))]

/-- Witness for C1 at the default bound 3 and an always-failing request. -/
theorem c1_retry_exhaustion_witness :
    generate_schema_retry (fun _ => Except.error "boom") 3 =
      ⟨.errorMarker "Failed to generate schema after multiple attempts", 3, 3⟩ :=
  c1_retry_exhaustion (fun _ => Except.error "boom") 3 (fun _ _ => ⟨"boom", rfl⟩)

/-- HTML fixture for C2: one paragraph tag and one image tag with a `src`. -/
def exampleHtmlDoc : Html :=
  .el "html" [] [.el "body" [] [.el "p" [] [.text ("Hello".toList)],
    .el "img" [("src", "a.png".toList)] []]]

/-- C2 (refuted; code bug): on a document with one paragraph the static
extractor emits no newline-delimited paragraph block at all.
`find_all(text=True)` yields `NavigableString` nodes whose `name` is
`None`, so `tag.name == 'p'` never holds, the paragraph branch is dead,
and every text node takes the whitespace-collapsing branch; here the
output is the bare concatenation with the image src and contains no
newline, while the claim requires the block to be surrounded by
newlines. -/
theorem c2_paragraph_branch_dead :
    extract_text_from_web exampleHtmlDoc = "Helloa.png".toList ∧
      '\n' ∉ extract_text_from_web exampleHtmlDoc := by
  have htn : textNodes exampleHtmlDoc = [("Hello".toList)] := by
    simp [exampleHtmlDoc, textNodes, textNodesL]
  have him : findAllImgSrc exampleHtmlDoc = [("a.png".toList)] := by
    simp [exampleHtmlDoc, findAllImgSrc, findAllImgSrcL]
  have heq : extract_text_from_web exampleHtmlDoc = "Helloa.png".toList := by
    simp only [extract_text_from_web, htn, him]
    rfl
  refine ⟨heq, ?_⟩
  rw [heq]
  decide

/-- C3: the `generate_schema` of src/app.py issues exactly one completion
request on every input, converts a raised request into the error marker
carrying `str(e)`, converts a response without a brace pair into the
error marker carrying the `ValueError` text, converts a JSON decode
failure into the fixed parse-error marker, and (last conjunct) only the
src/json-id-generator.py variant repeats requests. -/
theorem c3_app_single_request (llm : Except String (List Char)) :
    (app_generate_schema llm).2 = 1 ∧
    (∀ e, llm = .error e → (app_generate_schema llm).1 = .errorMarker e) ∧
    (∀ r, llm = .ok r → (pyFind r '{' = -1 ∨ pyRfind r '}' + 1 = 0) →
      (app_generate_schema llm).1 = .errorMarker "No valid JSON found in response") ∧
    (∀ r, llm = .ok r → ¬ (pyFind r '{' = -1 ∨ pyRfind r '}' + 1 = 0) →
      json_loads (pySlice r (pyFind r '{') (pyRfind r '}' + 1)) = none →
      (app_generate_schema llm).1 = .errorMarker "Invalid JSON format in response") ∧
    (generate_schema_retry (fun _ => Except.error "e") 3).calls = 3 := by
  refine ⟨?_, ?_, ?_, ?_, rfl⟩
  · cases llm with
    | error e => rfl
    | ok r =>
      by_cases hb : pyFind r '{' = -1 ∨ pyRfind r '}' + 1 = 0
      · simp [app_generate_schema, hb]
      · simp only [app_generate_schema, if_neg hb]
        cases hj : json_loads (pySlice r (pyFind r '{') (pyRfind r '}' + 1)) <;>
          simp [hj]
  · intro e he
    subst he
    rfl
  · intro r hr hb
    subst hr
    simp [app_generate_schema, hb]
  · intro r hr hb hj
    subst hr
    simp [app_generate_schema, if_neg hb, hj]

/-- Witness for C3 at a failing request. -/
theorem c3_app_single_request_witness :
    (app_generate_schema (Except.error "boom")).2 = 1 ∧
      (app_generate_schema (Except.error "boom")).1 = .errorMarker "boom" :=
  ⟨(c3_app_single_request (Except.error "boom")).1,
   (c3_app_single_request (Except.error "boom")).2.1 "boom" rfl⟩

/-- C4: when the response contains a brace pair and the substring from the
first brace to the last closing brace parses as JSON, both
`generate_schema` variants return exactly the decoded object (one
request, no retry), discarding the surrounding prose. -/
theorem c4_brace_extraction (response : List Char) (v : JsonVal)
    (hfind : pyFind response '{' ≠ -1)
    (hrfind : pyRfind response '}' + 1 ≠ 0)
    (hparse : json_loads
      (pySlice response (pyFind response '{') (pyRfind response '}' + 1)) = some v) :
    app_generate_schema (.ok response) = (.schema v, 1) ∧
    (∀ llm n, llm 0 = Except.ok response →
      generate_schema_retry llm (n + 1) = ⟨.schema v, 1, 0⟩) := by
  have hb : ¬ (pyFind response '{' = -1 ∨ pyRfind response '}' + 1 = 0) :=
    not_or.mpr ⟨hfind, hrfind⟩
  constructor
  · simp [app_generate_schema, if_neg hb, hparse]
  · intro llm n h0
    simp [generate_schema_retry, genAttempts, h0, if_neg hb, hparse]

/-- The spec's example response: prose surrounding a schema.org context. -/
def c4ExampleResponse : List Char :=
  ("Sure! \x7b\"@context\":\"https://schema.org\"\x7d Hope that helps").toList

/-- The object enclosed in `c4ExampleResponse`. -/
def c4ExampleValue : JsonVal :=
  .obj [("@context".toList, .str ("https://schema.org".toList))]

/-- Witness for C4 on the spec's example response. -/
theorem c4_brace_extraction_witness :
    app_generate_schema (.ok c4ExampleResponse) = (.schema c4ExampleValue, 1) ∧
      generate_schema_retry (fun _ => .ok c4ExampleResponse) 3 =
        ⟨.schema c4ExampleValue, 1, 0⟩ := by
  have h := c4_brace_extraction c4ExampleResponse c4ExampleValue
    (by decide) (by decide) (by rfl)
  exact ⟨h.1, h.2 (fun _ => .ok c4ExampleResponse) 2 rfl⟩

/-- C5: when the brace-delimited substring fails to parse as JSON, both
`generate_schema` variants return the fixed parse-error marker from the
first response, issuing exactly one completion request and no retry and
no backoff delay, regardless of the remaining attempt budget. -/
theorem c5_parse_failure_not_retried (response : List Char)
    (hfind : pyFind response '{' ≠ -1)
    (hrfind : pyRfind response '}' + 1 ≠ 0)
    (hparse : json_loads
      (pySlice response (pyFind response '{') (pyRfind response '}' + 1)) = none) :
    app_generate_schema (.ok response) =
      (.errorMarker "Invalid JSON format in response", 1) ∧
    (∀ llm n, llm 0 = Except.ok response →
      generate_schema_retry llm (n + 1) =
        ⟨.errorMarker "Invalid JSON format in response", 1, 0⟩) := by
  have hb : ¬ (pyFind response '{' = -1 ∨ pyRfind response '}' + 1 = 0) :=
    not_or.mpr ⟨hfind, hrfind⟩
  constructor
  · simp [app_generate_schema, if_neg hb, hparse]
  · intro llm n h0
    simp [generate_schema_retry, genAttempts, h0, if_neg hb, hparse]

/-- A response whose brace-delimited substring is not valid JSON. -/
def c5ExampleResponse : List Char := ("here: \x7boops\x7d").toList

/-- Witness for C5: the malformed payload is reported once, not retried. -/
theorem c5_parse_failure_witness :
    app_generate_schema (.ok c5ExampleResponse) =
      (.errorMarker "Invalid JSON format in response", 1) ∧
      generate_schema_retry (fun _ => .ok c5ExampleResponse) 3 =
        ⟨.errorMarker "Invalid JSON format in response", 1, 0⟩ := by
  have h := c5_parse_failure_not_retried c5ExampleResponse
    (by decide) (by decide) (by rfl)
  exact ⟨h.1, h.2 (fun _ => .ok c5ExampleResponse) 2 rfl⟩

/-- C6: a comparison response without any percentage pattern makes
`compare_schemas` return the error marker (the `ValueError` text), never
a success result — in particular never accuracy 0. -/
theorem c6_no_percent_is_error (response : List Char)
    (h : searchPercent response = none) :
    compare_schemas (.ok response) =
      .errorMarker "No valid accuracy score found in response" := by
  simp [compare_schemas, h]

/-- Witness for C6 on a response with no digit or percent sign. -/
theorem c6_no_percent_is_error_witness :
    compare_schemas (.ok ("The schemas are similar.".toList)) =
      .errorMarker "No valid accuracy score found in response" :=
  c6_no_percent_is_error ("The schemas are similar.".toList) rfl

/-- C7: `comprehensive_extraction` runs `driver.quit()` on every exit
path — when both phases succeed, when the expand phase raises and when
the harvest phase raises (the `finally` guard passes because `__init__`
always assigns a live driver). -/
theorem c7_driver_always_quit (γ : Type) (expandPhase : Except String Unit)
    (harvestPhase : Except String γ) (msg : String) (c : γ) :
    (comprehensive_extraction expandPhase harvestPhase).2 = true ∧
    comprehensive_extraction (Except.error msg) harvestPhase =
      ((none : Option γ), true) ∧
    comprehensive_extraction (Except.ok ()) (Except.error msg) =
      ((none : Option γ), true) ∧
    comprehensive_extraction (Except.ok ()) (Except.ok c) = (some c, true) := by
  refine ⟨?_, rfl, rfl, rfl⟩
  cases expandPhase <;> cases harvestPhase <;> rfl

/-- C8: with navigation succeeding, the expand phase never raises, runs
all five locator strategies in order (the trace has one entry per
strategy), a strategy whose locator raises is recorded as `none` without
stopping the others, and every element matched by a successful locator is
attempted regardless of the click outcomes (zero matches give an empty
entry). -/
theorem c8_expand_robust (find : Nat → Except String (List Nat))
    (click : Nat → Nat → Except String Unit) (nav : Except String Unit)
    (hnav : nav = Except.ok ()) :
    ∃ t, expand_all_collapsible_sections nav find click = .ok t ∧
      t.length = 5 ∧
      (∀ i, i < 5 → ∀ es, find i = .ok es →
        ∃ entry, t.get? i = some (some entry) ∧ entry.map Prod.fst = es) ∧
      (∀ i, i < 5 → ∀ e, find i = .error e → t.get? i = some none) := by
  subst hnav
  refine ⟨(List.range 5).map (fun i =>
    match find i with
    | .ok es => some (es.map (fun e =>
        (e, match click i e with | .ok _ => true | .error _ => false)))
    | .error _ => none), ?_, ?_, ?_, ?_⟩
  · simp only [expand_all_collapsible_sections, strategyLoop_ok, tryCatchE]
  · simp
  · intro i hi es hes
    refine ⟨es.map (fun e =>
      (e, match click i e with | .ok _ => true | .error _ => false)), ?_, ?_⟩
    · rw [List.get?_map, List.get?_range hi]
      simp only [Option.map_some']
      rw [hes]
    · clear hes
      induction es with
      | nil => rfl
      | cons a as iha => simp only [List.map_cons, List.cons.injEq]; exact ⟨trivial, iha⟩
  · intro i hi e he
    rw [List.get?_map, List.get?_range hi]
    simp only [Option.map_some']
    rw [he]

/-- Oracles for the C8 witness: strategy 0 matches nothing, strategy 1's
locator raises, strategy 2 matches three elements of which the second
click raises, strategies 3 and 4 match nothing. -/
def c8Find : Nat → Except String (List Nat) := fun i =>
  if i = 1 then .error "locator failed"
  else if i = 2 then .ok [10, 11, 12]
  else .ok []

/-- Click oracle for the C8 witness: element 11 raises. -/
def c8Click : Nat → Nat → Except String Unit := fun _ e =>
  if e = 11 then .error "click failed" else .ok ()

/-- Witness for C8 on the mixed oracles. -/
theorem c8_expand_robust_witness :
    ∃ t, expand_all_collapsible_sections (Except.ok ()) c8Find c8Click = .ok t ∧
      t.length = 5 ∧
      (∀ i, i < 5 → ∀ es, c8Find i = .ok es →
        ∃ entry, t.get? i = some (some entry) ∧ entry.map Prod.fst = es) ∧
      (∀ i, i < 5 → ∀ e, c8Find i = .error e → t.get? i = some none) :=
  c8_expand_robust c8Find c8Click (Except.ok ()) rfl

/-- C9: an input that does not parse as JSON makes `extract_text_from_json`
return `None` — never a partial or truncated string (the decode error is
caught and logged, not raised). -/
theorem c9_invalid_json_none (cs : List Char) (h : json_loads cs = none) :
    extract_text_from_json cs = none := by
  simp [extract_text_from_json, h]

/-- Witness for C9 on the truncated document from the spec. -/
theorem c9_invalid_json_none_witness :
    json_loads (("\x7b\"a\":").toList) = none ∧
      extract_text_from_json (("\x7b\"a\":").toList) = none :=
  ⟨rfl, c9_invalid_json_none (("\x7b\"a\":").toList) rfl⟩

/-- C10: on an input that parses as JSON, `extract_text_from_json` returns
the pretty-printed re-serialization, and re-parsing that output yields a
structure equal to the one parsed from the input (round trip). -/
theorem c10_passthrough_roundtrip (cs : List Char) (v : JsonVal)
    (h : json_loads cs = some v) :
    extract_text_from_json cs = some (json_dumps v) ∧
      json_loads (json_dumps v) = some v :=
  ⟨by simp [extract_text_from_json, h], json_loads_dumps v⟩

/-- Parsed form of the C10 witness document. -/
def c10ExampleValue : JsonVal :=
  .obj [("a".toList, .arr [.num 1, .num 2]), ("b".toList, .str ("x".toList))]

/-- Witness for C10 on a small document with an object, array, numbers
and a string. -/
theorem c10_passthrough_roundtrip_witness :
    extract_text_from_json (("\x7b\"a\": [1, 2], \"b\": \"x\"\x7d").toList) =
      some (json_dumps c10ExampleValue) ∧
      json_loads (json_dumps c10ExampleValue) = some c10ExampleValue :=
  c10_passthrough_roundtrip (("\x7b\"a\": [1, 2], \"b\": \"x\"\x7d").toList)
    c10ExampleValue (by rfl)

end SchemaGenSpec
